import Mathlib

/-!
Verification development for the thesaurus repository.

Part 1 models the Extraction Query Resolution Engine described by the
backend documentation (`orm/README.md`) and the design document: column
name resolution, filter coercion, per-table query building, the
multi-table orchestrator and the result merger.  The Python
implementation of this engine is not part of the shipped sources, so
every definition in the `Engine` namespace is modelled from the spec
(each doc comment says what is modelled).

Part 2 embeds the TypeScript frontend helpers that are present in the
sources: the questionnaire identifier round trip
(`getQuestionnaireId` / `getTableNameFromId`) and the client-side
validation in `submitExtraction`.
-/

namespace Engine

/-- One step of the Levenshtein recurrence: the distance from `x :: xs`
given the distance function `f` from `xs` (`f [] = xs.length`). -/
def levCons (x : Char) (f : List Char → Nat) : List Char → Nat
  | [] => f [] + 1
  | y :: ys =>
    if x = y then f ys
    else 1 + min (f ys) (min (levCons x f ys) (f (y :: ys)))

/-- Levenshtein edit distance between two character lists, used by the
fuzzy matching strategy. -/
def lev : List Char → List Char → Nat
  | [], ys => ys.length
  | x :: xs, ys => levCons x (lev xs) ys

/-- Fold a list of digit characters into the natural number they denote. -/
def digitsToNat (l : List Char) : Nat :=
  l.foldl (fun acc c => acc * 10 + (c.toNat - 48)) 0

/-- Modelled from the spec: the "numeric-looking" / "numeric-parseable"
test used by the Filter Coercion Engine (missing Python source).  A
string parses as an integer when it is a nonempty digit sequence,
optionally preceded by a minus sign; a sentinel such as "Ne sais pas"
does not parse. -/
def parseNumeric (s : String) : Option Int :=
  match s.data with
  | [] => none
  | '-' :: rest =>
    if rest ≠ [] ∧ rest.all Char.isDigit then some (-(Int.ofNat (digitsToNat rest)))
    else none
  | l =>
    if l.all Char.isDigit then some (Int.ofNat (digitsToNat l)) else none

/-- Modelled from the spec: resolver strategy 1, exact case-sensitive
equality (missing Python source). -/
def exactMatch (logicalName : String) (physicalColumns : List String) : Option String :=
  physicalColumns.find? (fun c => decide (c = logicalName))

/-- Character-wise lower-casing of a string. -/
def lowerStr (s : String) : String :=
  String.mk (s.data.map Char.toLower)

/-- Modelled from the spec: resolver strategy 2, equality ignoring case
(missing Python source). -/
def ciMatch (logicalName : String) (physicalColumns : List String) : Option String :=
  physicalColumns.find? (fun c => decide (lowerStr c = lowerStr logicalName))

/-- Modelled from the spec: resolver strategy 3, affix matching — the
physical name ends with `_<logicalName>`, or the logical name starts or
ends the physical name (missing Python source). -/
def affixMatch (logicalName : String) (physicalColumns : List String) : Option String :=
  physicalColumns.find? (fun c =>
    ('_' :: logicalName.data).isSuffixOf c.data ||
      logicalName.data.isPrefixOf c.data || logicalName.data.isSuffixOf c.data)

/-- Similarity gate for fuzzy matching: normalized edit-distance
similarity `1 - d / maxLen` clears the 0.8 threshold, expressed over the
naturals as `5 * d ≤ maxLen`. -/
def similarEnough (logicalName c : String) : Bool :=
  5 * lev logicalName.data c.data ≤ max logicalName.length c.length

/-- Strict "better fuzzy candidate" order: smaller edit distance first,
ties broken by shorter physical name. -/
def betterFuzzy (logicalName a b : String) : Bool :=
  lev logicalName.data a.data < lev logicalName.data b.data ||
    (lev logicalName.data a.data = lev logicalName.data b.data && a.length < b.length)

/-- Pick the best candidate from a list by a strict preference, keeping
the earlier one on non-improvement. -/
def pickBest (better : String → String → Bool) (cs : List String) (acc : Option String) :
    Option String :=
  cs.foldl
    (fun best c =>
      match best with
      | none => some c
      | some b => if better c b then some c else some b)
    acc

/-- Modelled from the spec: resolver strategy 4, fuzzy matching — the
best-scoring candidate above the similarity threshold, ties broken by
shortest physical name (missing Python source). -/
def fuzzyMatch (logicalName : String) (physicalColumns : List String) : Option String :=
  pickBest (betterFuzzy logicalName) (physicalColumns.filter (similarEnough logicalName)) none

/-- Modelled from the spec: the Column Name Resolver (missing Python
source).  Applies the four strategies in order, first match wins; a
total function that returns one physical column or none. -/
def resolve (logicalName : String) (physicalColumns : List String) : Option String :=
  match exactMatch logicalName physicalColumns with
  | some c => some c
  | none =>
    match ciMatch logicalName physicalColumns with
    | some c => some c
    | none =>
      match affixMatch logicalName physicalColumns with
      | some c => some c
      | none => fuzzyMatch logicalName physicalColumns

/-- Declared physical column type, as far as filter coercion needs it:
textual or numeric. -/
inductive ColType where
  | textual
  | numericCol
deriving DecidableEq, Repr

/-- Comparison operator tags `gt, lt, gte, lte`. -/
inductive CmpOp where
  | gt
  | lt
  | gte
  | lte
deriving DecidableEq, Repr

/-- Modelled from the spec: `FilterExpression` — an operator tag from
the closed set `{eq, gt, lt, gte, lte, like, ilike, in, not, is}` with
untyped string operands (missing Python source). -/
inductive FilterExpression where
  | fEq (v : String)
  | fNot (v : String)
  | fIs (v : String)
  | fCmp (op : CmpOp) (v : String)
  | fLike (pat : String)
  | fIlike (pat : String)
  | fIn (vs : List String)
deriving DecidableEq, Repr

/-- The coerced SQL predicate over one column.  `numPred` is the
cast-to-numeric comparison that excludes non-parseable values;
`textCmp` is a plain text comparison. -/
inductive SqlPredicate where
  | numPred (col : String) (op : CmpOp) (bound : Int)
  | textCmp (col : String) (op : CmpOp) (operand : String)
  | eqPred (col : String) (v : String)
  | nePred (col : String) (v : String)
  | isPred (col : String) (v : String)
  | likePred (col : String) (pat : String) (ci : Bool)
  | inPred (col : String) (vs : List String)
deriving DecidableEq, Repr

/-- Modelled from the spec: the Filter Coercion Engine (missing Python
source).  `eq, not, is` compare directly (`is` only accepts `null`,
`true`, `false`); `gt, lt, gte, lte` on a textual column with a
numeric-looking operand cast the column to numeric, otherwise compare as
text; `like`/`ilike` pass the pattern verbatim; `in` is membership. -/
def coerce (colType : ColType) (col : String) (f : FilterExpression) :
    Except Unit SqlPredicate :=
  match f with
  | .fEq v => .ok (.eqPred col v)
  | .fNot v => .ok (.nePred col v)
  | .fIs v =>
    if v = "null" ∨ v = "true" ∨ v = "false" then .ok (.isPred col v) else .error ()
  | .fCmp op v =>
    match parseNumeric v with
    | some b => .ok (.numPred col op b)
    | none =>
      match colType with
      | .textual => .ok (.textCmp col op v)
      | .numericCol => .error ()
  | .fLike pat => .ok (.likePred col pat false)
  | .fIlike pat => .ok (.likePred col pat true)
  | .fIn vs => .ok (.inPred col vs)

/-- Integer comparison selected by a `CmpOp`. -/
def cmpInt : CmpOp → Int → Int → Bool
  | .gt, a, b => a > b
  | .lt, a, b => a < b
  | .gte, a, b => a ≥ b
  | .lte, a, b => a ≤ b

/-- Lexicographic string comparison selected by a `CmpOp`. -/
def cmpStr : CmpOp → String → String → Bool
  | .gt, a, b => b < a
  | .lt, a, b => a < b
  | .gte, a, b => ¬ a < b
  | .lte, a, b => ¬ b < a

/-- SQL `LIKE` pattern matching over characters: `%` matches any
sequence, `_` matches any single character. -/
def likeMatch : List Char → List Char → Bool
  | [], [] => true
  | '%' :: ps, cs =>
    likeMatch ps cs ||
      (match cs with
       | [] => false
       | _ :: cs' => likeMatch ('%' :: ps) cs')
  | '_' :: ps, _ :: cs => likeMatch ps cs
  | p :: ps, c :: cs => p = c && likeMatch ps cs
  | _, _ => false
termination_by ps cs => ps.length + cs.length

/-- A stored physical row: an assignment of string values to physical
column names. -/
abbrev PhysRow := List (String × String)

/-- Look up a physical column's stored value in a row. -/
def lookupCell (row : PhysRow) (col : String) : Option String :=
  (row.find? (fun p => decide (p.1 = col))).map Prod.snd

/-- Modelled from the spec: evaluation of a coerced SQL predicate on one
stored row — the row-selection semantics of the generated WHERE clause
(missing Python source).  A `numPred` parses the stored value and
excludes rows whose value is not numeric-parseable. -/
def evalPred (row : PhysRow) : SqlPredicate → Bool
  | .numPred col op b =>
    match lookupCell row col with
    | none => false
    | some v =>
      match parseNumeric v with
      | none => false
      | some n => cmpInt op n b
  | .textCmp col op v =>
    match lookupCell row col with
    | none => false
    | some w => cmpStr op w v
  | .eqPred col v => lookupCell row col = some v
  | .nePred col v =>
    match lookupCell row col with
    | none => false
    | some w => decide (w ≠ v)
  | .isPred col v =>
    match v with
    | "null" => lookupCell row col = none
    | _ => lookupCell row col = some v
  | .likePred col pat ci =>
    match lookupCell row col with
    | none => false
    | some w =>
      if ci then likeMatch pat.toLower.data w.toLower.data
      else likeMatch pat.data w.data
  | .inPred col vs =>
    match lookupCell row col with
    | none => false
    | some w => vs.contains w

/-- One physical table of the introspected `PhysicalSchema`: name,
columns with their declared types, and stored rows. -/
structure PhysicalTable where
  name : String
  columns : List (String × ColType)
  rows : List PhysRow
deriving DecidableEq

/-- The physical column names of a table. -/
def colNames (t : PhysicalTable) : List String :=
  t.columns.map Prod.fst

/-- The declared type of a physical column (textual when unknown). -/
def colTypeOf (t : PhysicalTable) (c : String) : ColType :=
  (Option.map Prod.snd (t.columns.find? (fun p => decide (p.1 = c)))).getD .textual

/-- Modelled from the spec: a `VariableSelection` — one table name,
requested logical variable names, optional filters keyed by logical
variable name (missing Python source). -/
structure VariableSelection where
  table_name : String
  variable_names : List String
  filters : List (String × FilterExpression)
deriving DecidableEq, Repr

/-- Modelled from the spec: an `ExtractionQuery` — ordered selections
plus an optional global row limit (missing Python source). -/
structure ExtractionQuery where
  selections : List VariableSelection
  limit : Option Nat
deriving DecidableEq, Repr

/-- One output row: the `table_name` provenance tag plus the requested
logical variable names mapped to their values (`none` is SQL null). -/
structure ExtractionRow where
  table_name : String
  fields : List (String × Option String)
deriving DecidableEq, Repr

/-- Modelled from the spec: the WHERE-clause construction of the
Per-Table Query Builder (missing Python source).  Each filter whose
target column resolves and coerces contributes a predicate; a filter
whose column does not resolve, or whose coercion fails, is dropped with
a warning. -/
def keptPredicates (t : PhysicalTable) (filters : List (String × FilterExpression)) :
    List SqlPredicate :=
  filters.filterMap (fun f =>
    match resolve f.1 (colNames t) with
    | none => none
    | some c =>
      match coerce (colTypeOf t c) c f.2 with
      | .error _ => none
      | .ok p => some p)

/-- Conjunction of all kept predicates (AND semantics). -/
def rowPasses (preds : List SqlPredicate) (row : PhysRow) : Bool :=
  preds.all (evalPred row)

/-- Modelled from the spec: the Per-Table Query Builder plus execution
(missing Python source).  Rows passing all kept filters are returned in
natural order; each requested logical variable is aliased to its
resolved column's value, and an unresolved variable yields null in every
row instead of removing the row. -/
def runSelection (t : PhysicalTable) (sel : VariableSelection) : List ExtractionRow :=
  let preds := keptPredicates t sel.filters
  let resolved := sel.variable_names.map (fun v => (v, resolve v (colNames t)))
  (t.rows.filter (rowPasses preds)).map (fun row =>
    { table_name := t.name
      fields := resolved.map (fun p => (p.1, p.2.bind (lookupCell row))) })

/-- Look up a physical table by name in the physical schema. -/
def findTable (schema : List PhysicalTable) (name : String) : Option PhysicalTable :=
  schema.find? (fun t => decide (t.name = name))

/-- Modelled from the spec: one selection's contribution in the
Multi-Table Orchestrator (missing Python source).  A selection whose
table is absent from the physical schema is skipped entirely (logged,
not raised) and contributes no rows. -/
def tableContribution (schema : List PhysicalTable) (sel : VariableSelection) :
    List ExtractionRow :=
  match findTable schema sel.table_name with
  | none => []
  | some t => runSelection t sel

/-- Modelled from the spec: the Result Merger (missing Python source).
Concatenates the per-table partial row lists in input order and
truncates the merged sequence to the global limit. -/
def merge (partials : List (List ExtractionRow)) (limit : Option Nat) :
    List ExtractionRow :=
  match limit with
  | none => partials.flatten
  | some n => partials.flatten.take n

/-- Modelled from the spec: the Multi-Table Orchestrator `extract`
(missing Python source).  Fans the query out over the selections in
input order and merges the contributions; an empty result is a normal
outcome, never an error. -/
def extract (schema : List PhysicalTable) (q : ExtractionQuery) : List ExtractionRow :=
  merge (q.selections.map (tableContribution schema)) q.limit

end Engine

namespace Front

/-- JavaScript `String.prototype.split` with a one-character separator:
splits on every occurrence, keeping empty segments.  The result is never
empty. -/
def splitCh (c : Char) : List Char → List (List Char)
  | [] => [[]]
  | x :: xs =>
    let r := splitCh c xs
    if x = c then [] :: r
    else (x :: r.headI) :: r.tail

/-- Embeds `getQuestionnaireId` (DatasetDetail component): the short
table name — the segment after the first dot when the table name is
schema-qualified, else the full name — prefixed to the full table name
with an underscore. -/
def getQuestionnaireId (tableName _schemaName : String) : String :=
  let shortTableName :=
    if tableName.data.contains '.' then
      String.mk ((splitCh '.' tableName.data).getD 1 tableName.data)
    else tableName
  shortTableName ++ "_" ++ tableName

/-- Embeds `getTableNameFromId` (QuestionnaireVariables component):
split the questionnaire id on underscores and keep the last segment when
there are at least two. -/
def getTableNameFromId (questionnaireId : String) : String :=
  let parts := splitCh '_' questionnaireId.data
  if parts.length > 1 then String.mk (parts.getLastD questionnaireId.data)
  else questionnaireId

/-- One selection of the frontend `ExtractionRequest`; `none` models a
missing (or non-array) field of the untyped runtime value.  The source
field named "variables" is `variableNames` here (the source name is a
reserved word in Lean). -/
structure TVariableSelection where
  questionnaireId : Option String
  variableNames : Option (List String)

/-- The frontend `ExtractionRequest`; `none` models a missing (or
non-array, for `selections`) field of the untyped runtime value. -/
structure TExtractionRequest where
  datasetId : Option String
  selections : Option (List TVariableSelection)

/-- JavaScript falsiness of an optional string field: absent or empty. -/
def jsFalsyStr : Option String → Bool
  | none => true
  | some s => s.isEmpty

/-- Embeds the `forEach` validation loop of `submitExtraction`: the
first selection missing a `questionnaireId` or a `variables` array
throws an `Error` naming its index. -/
def checkSelections : Nat → List TVariableSelection → Except String Unit
  | _, [] => .ok ()
  | i, s :: rest =>
    if jsFalsyStr s.questionnaireId then
      .error ("Missing questionnaireId in selection at index " ++ toString i)
    else
      match s.variableNames with
      | none => .error ("Missing or invalid variables in selection at index " ++ toString i)
      | some _ => checkSelections (i + 1) rest

/-- Embeds the validation prologue of `submitExtraction` (lib/api):
the checks run in order before any network call, and a request passing
them is posted to the `/api/v1/extract` endpoint.  `Except.error` models
a thrown `Error` (no network request issued); `Except.ok` carries the
endpoint path the request is posted to. -/
def submitExtraction (r : TExtractionRequest) : Except String String :=
  if jsFalsyStr r.datasetId then .error "Missing datasetId in extraction request"
  else
    match r.selections with
    | none => .error "Missing or invalid selections in extraction request"
    | some sels =>
      match checkSelections 0 sels with
      | .error e => .error e
      | .ok _ => .ok "/api/v1/extract"

end Front

namespace Engine

/-- Whatever `pickBest` returns comes from the candidate list or was the
starting accumulator. -/
theorem pickBest_mem (better : String → String → Bool) :
    ∀ (cs : List String) (acc : Option String) (c : String),
      pickBest better cs acc = some c → c ∈ cs ∨ acc = some c := by
  intro cs
  induction cs with
  | nil => intro acc c h; exact Or.inr h
  | cons x xs ih =>
    intro acc c h
    cases acc with
    | none =>
      have h' : pickBest better xs (some x) = some c := h
      rcases ih (some x) c h' with hmem | hacc
      · exact Or.inl (List.mem_cons_of_mem _ hmem)
      · refine Or.inl ?_
        rw [← Option.some.inj hacc]
        exact List.mem_cons_self x xs
    | some b =>
      have hstep : pickBest better (x :: xs) (some b) =
          pickBest better xs (if better x b then some x else some b) := rfl
      rw [hstep] at h
      by_cases hb : better x b = true
      · rw [if_pos hb] at h
        rcases ih _ c h with hmem | hacc
        · exact Or.inl (List.mem_cons_of_mem _ hmem)
        · refine Or.inl ?_
          rw [← Option.some.inj hacc]
          exact List.mem_cons_self x xs
      · rw [if_neg hb] at h
        rcases ih _ c h with hmem | hacc
        · exact Or.inl (List.mem_cons_of_mem _ hmem)
        · exact Or.inr hacc

/-- A column returned by `fuzzyMatch` is one of the physical columns. -/
theorem fuzzyMatch_mem (L : String) (P : List String) (c : String)
    (h : fuzzyMatch L P = some c) : c ∈ P := by
  rcases pickBest_mem (betterFuzzy L) _ none c h with hmem | habs
  · exact List.mem_of_mem_filter hmem
  · cases habs

/-- A column returned by the resolver is one of the physical columns. -/
theorem resolve_mem (L : String) (P : List String) (c : String)
    (h : resolve L P = some c) : c ∈ P := by
  unfold resolve at h
  cases h1 : exactMatch L P with
  | some d =>
    rw [h1] at h
    cases h
    exact List.mem_of_find?_eq_some h1
  | none =>
    rw [h1] at h
    cases h2 : ciMatch L P with
    | some d =>
      rw [h2] at h
      cases h
      exact List.mem_of_find?_eq_some h2
    | none =>
      rw [h2] at h
      cases h3 : affixMatch L P with
      | some d =>
        rw [h3] at h
        cases h
        exact List.mem_of_find?_eq_some h3
      | none =>
        rw [h3] at h
        exact fuzzyMatch_mem L P c h

/-- Every row of a merged result comes unchanged from one of the
partial per-table row lists. -/
theorem mem_merge (partials : List (List ExtractionRow)) (lim : Option Nat)
    (r : ExtractionRow) (h : r ∈ merge partials lim) : ∃ p ∈ partials, r ∈ p := by
  unfold merge at h
  cases lim with
  | none => exact List.mem_flatten.mp h
  | some n => exact List.mem_flatten.mp (List.take_subset n _ h)

/-- Every row built from a table carries that table's name as its
provenance tag. -/
theorem runSelection_table_name (t : PhysicalTable) (sel : VariableSelection)
    (r : ExtractionRow) (h : r ∈ runSelection t sel) : r.table_name = t.name := by
  unfold runSelection at h
  obtain ⟨row, _, rfl⟩ := List.mem_map.mp h
  rfl

/-- Structure of extraction output: every output row was produced by a
selection whose table was found in the physical schema, and is tagged
with that physical table's name. -/
theorem mem_extract (schema : List PhysicalTable) (q : ExtractionQuery)
    (r : ExtractionRow) (h : r ∈ extract schema q) :
    ∃ t, t ∈ schema ∧ r.table_name = t.name ∧
      ∃ sel ∈ q.selections, findTable schema sel.table_name = some t ∧
        r ∈ runSelection t sel := by
  obtain ⟨p, hp, hr⟩ := mem_merge _ _ r h
  obtain ⟨sel, hsel, rfl⟩ := List.mem_map.mp hp
  unfold tableContribution at hr
  cases hft : findTable schema sel.table_name with
  | none => rw [hft] at hr; cases hr
  | some t =>
    rw [hft] at hr
    exact ⟨t, List.mem_of_find?_eq_some hft, runSelection_table_name t sel r hr,
      sel, hsel, hft, hr⟩

end Engine

/-- C5: if the logical name is itself one of the physical columns
(case-sensitive), the exact-match strategy fires first and the resolver
returns exactly that name. -/
theorem C5_exact_match_first (L : String) (P : List String) (h : L ∈ P) :
    Engine.resolve L P = some L := by
  have hex : Engine.exactMatch L P = some L := by
    unfold Engine.exactMatch
    cases hf : P.find? (fun c => decide (c = L)) with
    | none =>
      exfalso
      have := List.find?_eq_none.mp hf L h
      simp at this
    | some c =>
      have hc := List.find?_some hf
      simp at hc
      rw [hc]
  unfold Engine.resolve
  rw [hex]

/-- C5 witness: the resolver on a concrete physical column set
containing the logical name returns it. -/
theorem C5_exact_match_first_witness :
    "age" ∈ ["usubjid", "age", "age_years"] ∧
      Engine.resolve "age" ["usubjid", "age", "age_years"] = some "age" :=
  ⟨by decide, C5_exact_match_first "age" ["usubjid", "age", "age_years"] (by decide)⟩

/-- C6: the resolver is total and single-valued — on an empty physical
column set it returns `none`, and any returned column is one of the
physical columns (one result or none, never an error, never an
ambiguous set). -/
theorem C6_resolve_total (L : String) (P : List String) (c : String)
    (h : Engine.resolve L P = some c) :
    c ∈ P ∧ Engine.resolve L [] = none :=
  ⟨Engine.resolve_mem L P c h, rfl⟩

/-- C6 witness: a concrete resolution whose result is among the
physical columns, next to the empty-set miss. -/
theorem C6_resolve_total_witness :
    Engine.resolve "age" ["age_years", "id"] = some "age_years" ∧
      ("age_years" ∈ ["age_years", "id"] ∧ Engine.resolve "age" [] = none) :=
  ⟨by decide, C6_resolve_total "age" ["age_years", "id"] "age_years" (by decide)⟩

/-- C3: a `gt/lt/gte/lte` filter on a textual column with a
numeric-looking operand coerces to a numeric-cast predicate, and that
predicate excludes every row whose stored value is not
numeric-parseable while comparing parseable values numerically. -/
theorem C3_numeric_cast_excludes_sentinels (col : String) (op : Engine.CmpOp)
    (operand v : String) (b : Int) (row : Engine.PhysRow)
    (hb : Engine.parseNumeric operand = some b)
    (hv : Engine.lookupCell row col = some v) :
    Engine.coerce .textual col (.fCmp op operand) = .ok (.numPred col op b) ∧
      Engine.evalPred row (.numPred col op b) =
        (Engine.parseNumeric v).elim false (fun n => Engine.cmpInt op n b) := by
  constructor
  · simp [Engine.coerce, hb]
  · simp only [Engine.evalPred, hv]
    cases Engine.parseNumeric v <;> simp

/-- C3 witness: with the filter `{gt: "20"}`, the sentinel "Ne sais
pas" row fails the coerced predicate and the numeric row "25" passes. -/
theorem C3_numeric_cast_excludes_sentinels_witness :
    ((Engine.parseNumeric "20" = some 20 ∧
        Engine.lookupCell [("age", "Ne sais pas")] "age" = some "Ne sais pas") ∧
      (Engine.coerce .textual "age" (.fCmp .gt "20") = .ok (.numPred "age" .gt 20) ∧
        Engine.evalPred [("age", "Ne sais pas")] (.numPred "age" .gt 20) =
          (Engine.parseNumeric "Ne sais pas").elim false
            (fun n => Engine.cmpInt .gt n 20))) ∧
      ((Engine.coerce .textual "age" (.fCmp .gt "20") = .ok (.numPred "age" .gt 20) ∧
        Engine.evalPred [("age", "25")] (.numPred "age" .gt 20) =
          (Engine.parseNumeric "25").elim false (fun n => Engine.cmpInt .gt n 20)) ∧
        (Engine.evalPred [("age", "Ne sais pas")] (.numPred "age" .gt 20) = false ∧
          Engine.evalPred [("age", "25")] (.numPred "age" .gt 20) = true)) :=
  ⟨⟨⟨by decide, by decide⟩,
      C3_numeric_cast_excludes_sentinels "age" .gt "20" "Ne sais pas" 20
        [("age", "Ne sais pas")] (by decide) (by decide)⟩,
    C3_numeric_cast_excludes_sentinels "age" .gt "20" "25" 20
        [("age", "25")] (by decide) (by decide),
    by decide, by decide⟩

/-- C7: when every selection of the query is dropped because its table
is missing from the physical schema, `extract` returns the empty,
well-formed zero-row result rather than an error. -/
theorem C7_all_dropped_empty_result (schema : List Engine.PhysicalTable)
    (q : Engine.ExtractionQuery)
    (h : ∀ sel ∈ q.selections, Engine.findTable schema sel.table_name = none) :
    Engine.extract schema q = [] := by
  have hmap : ∀ sel ∈ q.selections,
      Engine.tableContribution schema sel = ([] : List Engine.ExtractionRow) := by
    intro sel hs
    unfold Engine.tableContribution
    rw [h sel hs]
  have hflat : (q.selections.map (Engine.tableContribution schema)).flatten = [] := by
    rw [List.flatten_eq_nil_iff]
    intro l hl
    obtain ⟨sel, hsel, rfl⟩ := List.mem_map.mp hl
    exact hmap sel hsel
  unfold Engine.extract Engine.merge
  cases q.limit with
  | none => exact hflat
  | some n => rw [hflat]; exact List.take_nil

/-- C7 witness: a concrete query whose only selections reference tables
absent from the schema extracts to the empty result. -/
theorem C7_all_dropped_empty_result_witness :
    (∀ sel ∈ (Engine.ExtractionQuery.mk
        [⟨"ghost", ["id"], []⟩, ⟨"phantom", ["id"], []⟩] (some 10)).selections,
      Engine.findTable [⟨"patients", [("id", .textual)], [[("id", "1")]]⟩]
        sel.table_name = none) ∧
      Engine.extract [⟨"patients", [("id", .textual)], [[("id", "1")]]⟩]
        (Engine.ExtractionQuery.mk
          [⟨"ghost", ["id"], []⟩, ⟨"phantom", ["id"], []⟩] (some 10)) = [] :=
  ⟨by decide,
    C7_all_dropped_empty_result [⟨"patients", [("id", .textual)], [[("id", "1")]]⟩]
      (Engine.ExtractionQuery.mk
        [⟨"ghost", ["id"], []⟩, ⟨"phantom", ["id"], []⟩] (some 10))
      (by decide)⟩

/-- C1: a requested logical variable that does not resolve to a
physical column still appears, bound to null, in every output row of
its (existing) table; the table keeps exactly the rows passing its
filters, and when every variable misses resolution the rows are still
present with every field null and the provenance tag set. -/
theorem C1_unresolved_variable_yields_null (schema : List Engine.PhysicalTable)
    (t : Engine.PhysicalTable) (sel : Engine.VariableSelection) (v : String)
    (ht : Engine.findTable schema sel.table_name = some t)
    (hv : v ∈ sel.variable_names)
    (hmiss : Engine.resolve v (Engine.colNames t) = none) :
    (∀ r ∈ Engine.tableContribution schema sel,
        r.table_name = t.name ∧ (v, none) ∈ r.fields) ∧
      (Engine.tableContribution schema sel).length =
        (t.rows.filter (Engine.rowPasses (Engine.keptPredicates t sel.filters))).length ∧
      ((∀ w ∈ sel.variable_names, Engine.resolve w (Engine.colNames t) = none) →
        ∀ r ∈ Engine.tableContribution schema sel, ∀ f ∈ r.fields, f.2 = none) := by
  unfold Engine.tableContribution
  rw [ht]
  refine ⟨?_, ?_, ?_⟩
  · intro r hr
    unfold Engine.runSelection at hr
    obtain ⟨row, hrow, rfl⟩ := List.mem_map.mp hr
    refine ⟨rfl, ?_⟩
    refine List.mem_map.mpr ⟨(v, Engine.resolve v (Engine.colNames t)), ?_, ?_⟩
    · exact List.mem_map.mpr ⟨v, hv, rfl⟩
    · rw [hmiss]
      rfl
  · unfold Engine.runSelection
    simp
  · intro hall r hr f hf
    unfold Engine.runSelection at hr
    obtain ⟨row, hrow, rfl⟩ := List.mem_map.mp hr
    simp only at hf
    obtain ⟨p, hp, rfl⟩ := List.mem_map.mp hf
    obtain ⟨w, hw, rfl⟩ := List.mem_map.mp hp
    simp [hall w hw]

/-- C1 witness: a table with one physical column `ab`, a selection
asking only for the unresolvable variable `qq`, no filters — both rows
survive with the field null and the tag set. -/
theorem C1_unresolved_variable_yields_null_witness :
    (Engine.findTable
        [⟨"patients", [("ab", .textual)], [[("ab", "1")], [("ab", "2")]]⟩]
        (Engine.VariableSelection.mk "patients" ["qq"] []).table_name =
      some ⟨"patients", [("ab", .textual)], [[("ab", "1")], [("ab", "2")]]⟩ ∧
      "qq" ∈ (Engine.VariableSelection.mk "patients" ["qq"] []).variable_names ∧
      Engine.resolve "qq"
        (Engine.colNames ⟨"patients", [("ab", .textual)], [[("ab", "1")], [("ab", "2")]]⟩) =
        none) ∧
      ((∀ r ∈ Engine.tableContribution
          [⟨"patients", [("ab", .textual)], [[("ab", "1")], [("ab", "2")]]⟩]
          (Engine.VariableSelection.mk "patients" ["qq"] []),
          r.table_name =
              (⟨"patients", [("ab", .textual)],
                [[("ab", "1")], [("ab", "2")]]⟩ : Engine.PhysicalTable).name ∧
            (("qq", none) ∈ r.fields)) ∧
        (Engine.tableContribution
            [⟨"patients", [("ab", .textual)], [[("ab", "1")], [("ab", "2")]]⟩]
            (Engine.VariableSelection.mk "patients" ["qq"] [])).length =
          ((⟨"patients", [("ab", .textual)],
              [[("ab", "1")], [("ab", "2")]]⟩ : Engine.PhysicalTable).rows.filter
            (Engine.rowPasses
              (Engine.keptPredicates
                ⟨"patients", [("ab", .textual)], [[("ab", "1")], [("ab", "2")]]⟩
                (Engine.VariableSelection.mk "patients" ["qq"] []).filters))).length ∧
        ((∀ w ∈ (Engine.VariableSelection.mk "patients" ["qq"] []).variable_names,
            Engine.resolve w
              (Engine.colNames
                ⟨"patients", [("ab", .textual)], [[("ab", "1")], [("ab", "2")]]⟩) = none) →
          ∀ r ∈ Engine.tableContribution
              [⟨"patients", [("ab", .textual)], [[("ab", "1")], [("ab", "2")]]⟩]
              (Engine.VariableSelection.mk "patients" ["qq"] []),
            ∀ f ∈ r.fields, f.2 = none)) :=
  ⟨⟨by decide, by decide, by decide⟩,
    C1_unresolved_variable_yields_null
      [⟨"patients", [("ab", .textual)], [[("ab", "1")], [("ab", "2")]]⟩]
      ⟨"patients", [("ab", .textual)], [[("ab", "1")], [("ab", "2")]]⟩
      (Engine.VariableSelection.mk "patients" ["qq"] []) "qq"
      (by decide) (by decide) (by decide)⟩

/-- C2: a selection whose table is missing from the physical schema is
skipped entirely — the extraction result is the same as for the query
without it, no error is produced, and every returned row comes from a
table that exists in the schema. -/
theorem C2_missing_table_skipped (schema : List Engine.PhysicalTable)
    (pre post : List Engine.VariableSelection) (bad : Engine.VariableSelection)
    (lim : Option Nat)
    (hmiss : Engine.findTable schema bad.table_name = none) :
    Engine.extract schema ⟨pre ++ bad :: post, lim⟩ =
        Engine.extract schema ⟨pre ++ post, lim⟩ ∧
      ∀ r ∈ Engine.extract schema ⟨pre ++ bad :: post, lim⟩,
        ∃ t ∈ schema, r.table_name = t.name := by
  have hbad : Engine.tableContribution schema bad = [] := by
    unfold Engine.tableContribution
    rw [hmiss]
  constructor
  · unfold Engine.extract Engine.merge
    cases lim <;>
      simp [List.map_append, List.flatten_append, hbad]
  · intro r hr
    obtain ⟨t, htm, htn, -⟩ := Engine.mem_extract schema _ r hr
    exact ⟨t, htm, htn⟩

/-- C2 witness: a query naming the missing table `ghost` between two
selections of the existing table `t1` behaves exactly like the query
without the `ghost` selection, and all rows come from schema tables. -/
theorem C2_missing_table_skipped_witness :
    Engine.findTable [⟨"t1", [("id", .textual)], [[("id", "1")]]⟩]
        (Engine.VariableSelection.mk "ghost" ["id"] []).table_name = none ∧
      (Engine.extract [⟨"t1", [("id", .textual)], [[("id", "1")]]⟩]
          ⟨[Engine.VariableSelection.mk "t1" ["id"] []] ++
            Engine.VariableSelection.mk "ghost" ["id"] [] ::
              [Engine.VariableSelection.mk "t1" ["id"] []], some 10⟩ =
          Engine.extract [⟨"t1", [("id", .textual)], [[("id", "1")]]⟩]
            ⟨[Engine.VariableSelection.mk "t1" ["id"] []] ++
              [Engine.VariableSelection.mk "t1" ["id"] []], some 10⟩ ∧
        ∀ r ∈ Engine.extract [⟨"t1", [("id", .textual)], [[("id", "1")]]⟩]
            ⟨[Engine.VariableSelection.mk "t1" ["id"] []] ++
              Engine.VariableSelection.mk "ghost" ["id"] [] ::
                [Engine.VariableSelection.mk "t1" ["id"] []], some 10⟩,
          ∃ t ∈ [(⟨"t1", [("id", .textual)], [[("id", "1")]]⟩ : Engine.PhysicalTable)],
            r.table_name = t.name) :=
  ⟨by decide,
    C2_missing_table_skipped [⟨"t1", [("id", .textual)], [[("id", "1")]]⟩]
      [Engine.VariableSelection.mk "t1" ["id"] []]
      [Engine.VariableSelection.mk "t1" ["id"] []]
      (Engine.VariableSelection.mk "ghost" ["id"] []) (some 10) (by decide)⟩

/-- C4: the limit is applied globally to the merged sequence in
selection order — the result with a limit is the truncation of the
unlimited merged result, and when the first selection alone supplies at
least `n` rows the output is exactly the first `n` rows of that
selection's contribution, never an interleaving. -/
theorem C4_global_limit_selection_order (schema : List Engine.PhysicalTable)
    (s1 : Engine.VariableSelection) (rest : List Engine.VariableSelection) (n : Nat)
    (h : n ≤ (Engine.tableContribution schema s1).length) :
    Engine.extract schema ⟨s1 :: rest, some n⟩ =
        (Engine.tableContribution schema s1).take n ∧
      Engine.extract schema ⟨s1 :: rest, some n⟩ =
        (Engine.extract schema ⟨s1 :: rest, none⟩).take n := by
  constructor
  · unfold Engine.extract Engine.merge
    simp only [List.map_cons, List.flatten_cons]
    exact List.take_append_of_le_length h
  · rfl

/-- C4 witness: three tables of ten matching rows each, selected in
order `[T1, T2, T3]` with limit 5 — the output is exactly the first
five rows of `T1`'s contribution. -/
theorem C4_global_limit_selection_order_witness :
    5 ≤ (Engine.tableContribution
        [⟨"T1", [("id", .textual)], List.replicate 10 [("id", "1")]⟩,
          ⟨"T2", [("id", .textual)], List.replicate 10 [("id", "2")]⟩,
          ⟨"T3", [("id", .textual)], List.replicate 10 [("id", "3")]⟩]
        (Engine.VariableSelection.mk "T1" ["id"] [])).length ∧
      (Engine.extract
          [⟨"T1", [("id", .textual)], List.replicate 10 [("id", "1")]⟩,
            ⟨"T2", [("id", .textual)], List.replicate 10 [("id", "2")]⟩,
            ⟨"T3", [("id", .textual)], List.replicate 10 [("id", "3")]⟩]
          ⟨Engine.VariableSelection.mk "T1" ["id"] [] ::
            [Engine.VariableSelection.mk "T2" ["id"] [],
              Engine.VariableSelection.mk "T3" ["id"] []], some 5⟩ =
          (Engine.tableContribution
            [⟨"T1", [("id", .textual)], List.replicate 10 [("id", "1")]⟩,
              ⟨"T2", [("id", .textual)], List.replicate 10 [("id", "2")]⟩,
              ⟨"T3", [("id", .textual)], List.replicate 10 [("id", "3")]⟩]
            (Engine.VariableSelection.mk "T1" ["id"] [])).take 5 ∧
        Engine.extract
            [⟨"T1", [("id", .textual)], List.replicate 10 [("id", "1")]⟩,
              ⟨"T2", [("id", .textual)], List.replicate 10 [("id", "2")]⟩,
              ⟨"T3", [("id", .textual)], List.replicate 10 [("id", "3")]⟩]
            ⟨Engine.VariableSelection.mk "T1" ["id"] [] ::
              [Engine.VariableSelection.mk "T2" ["id"] [],
                Engine.VariableSelection.mk "T3" ["id"] []], some 5⟩ =
          (Engine.extract
              [⟨"T1", [("id", .textual)], List.replicate 10 [("id", "1")]⟩,
                ⟨"T2", [("id", .textual)], List.replicate 10 [("id", "2")]⟩,
                ⟨"T3", [("id", .textual)], List.replicate 10 [("id", "3")]⟩]
              ⟨Engine.VariableSelection.mk "T1" ["id"] [] ::
                [Engine.VariableSelection.mk "T2" ["id"] [],
                  Engine.VariableSelection.mk "T3" ["id"] []], none⟩).take 5) :=
  ⟨by decide,
    C4_global_limit_selection_order
      [⟨"T1", [("id", .textual)], List.replicate 10 [("id", "1")]⟩,
        ⟨"T2", [("id", .textual)], List.replicate 10 [("id", "2")]⟩,
        ⟨"T3", [("id", .textual)], List.replicate 10 [("id", "3")]⟩]
      (Engine.VariableSelection.mk "T1" ["id"] [])
      [Engine.VariableSelection.mk "T2" ["id"] [],
        Engine.VariableSelection.mk "T3" ["id"] []] 5 (by decide)⟩

/-- C8: every row of an extraction result is tagged with the name of
the physical table that produced it (the table found in the physical
schema for its selection), and merging partial results passes every row
through unchanged from its partial list. -/
theorem C8_table_name_provenance (schema : List Engine.PhysicalTable)
    (q : Engine.ExtractionQuery) (r : Engine.ExtractionRow)
    (partials : List (List Engine.ExtractionRow)) (lim : Option Nat)
    (r' : Engine.ExtractionRow)
    (h1 : r ∈ Engine.extract schema q)
    (h2 : r' ∈ Engine.merge partials lim) :
    (∃ t, t ∈ schema ∧ r.table_name = t.name ∧
        ∃ sel ∈ q.selections, Engine.findTable schema sel.table_name = some t ∧
          r ∈ Engine.runSelection t sel) ∧
      ∃ p ∈ partials, r' ∈ p :=
  ⟨Engine.mem_extract schema q r h1, Engine.mem_merge partials lim r' h2⟩

/-- C8 witness: the single row extracted from table `t1` is tagged
`t1` and survives the merge unchanged. -/
theorem C8_table_name_provenance_witness :
    ((⟨"t1", [("id", some "1")]⟩ : Engine.ExtractionRow) ∈
        Engine.extract [⟨"t1", [("id", .textual)], [[("id", "1")]]⟩]
          ⟨[Engine.VariableSelection.mk "t1" ["id"] []], none⟩ ∧
      (⟨"t1", [("id", some "1")]⟩ : Engine.ExtractionRow) ∈
        Engine.merge [[⟨"t1", [("id", some "1")]⟩]] none) ∧
      ((∃ t, t ∈ [(⟨"t1", [("id", .textual)], [[("id", "1")]]⟩ : Engine.PhysicalTable)] ∧
          (⟨"t1", [("id", some "1")]⟩ : Engine.ExtractionRow).table_name = t.name ∧
          ∃ sel ∈ [Engine.VariableSelection.mk "t1" ["id"] []],
            Engine.findTable [⟨"t1", [("id", .textual)], [[("id", "1")]]⟩]
                sel.table_name = some t ∧
              (⟨"t1", [("id", some "1")]⟩ : Engine.ExtractionRow) ∈
                Engine.runSelection t sel) ∧
        ∃ p ∈ [[(⟨"t1", [("id", some "1")]⟩ : Engine.ExtractionRow)]],
          (⟨"t1", [("id", some "1")]⟩ : Engine.ExtractionRow) ∈ p) :=
  ⟨⟨by decide, by decide⟩,
    C8_table_name_provenance [⟨"t1", [("id", .textual)], [[("id", "1")]]⟩]
      ⟨[Engine.VariableSelection.mk "t1" ["id"] []], none⟩
      ⟨"t1", [("id", some "1")]⟩
      [[⟨"t1", [("id", some "1")]⟩]] none
      ⟨"t1", [("id", some "1")]⟩ (by decide) (by decide)⟩

namespace Front

/-- `splitCh` never returns the empty list of segments. -/
theorem splitCh_ne_nil (c : Char) (l : List Char) : splitCh c l ≠ [] := by
  cases l with
  | nil => simp [splitCh]
  | cons x xs =>
    by_cases h : x = c <;> simp [splitCh, h]

/-- The head of a nonempty list is a member. -/
theorem headI_mem {α : Type} [Inhabited α] {r : List α} (h : r ≠ []) : r.headI ∈ r := by
  cases r with
  | nil => exact absurd rfl h
  | cons a t => exact List.mem_cons_self a t

/-- Every character of every segment of `splitCh c l` occurs in `l`. -/
theorem splitCh_subset (c : Char) :
    ∀ (l x : List Char), x ∈ splitCh c l → ∀ a ∈ x, a ∈ l := by
  intro l
  induction l with
  | nil =>
    intro x hx a ha
    simp [splitCh] at hx
    subst hx
    cases ha
  | cons y ys ih =>
    intro x hx a ha
    by_cases h : y = c
    · simp only [splitCh, if_pos h] at hx
      rcases List.mem_cons.mp hx with rfl | hx'
      · cases ha
      · exact List.mem_cons_of_mem _ (ih x hx' a ha)
    · simp only [splitCh, if_neg h] at hx
      rcases List.mem_cons.mp hx with rfl | hx'
      · rcases List.mem_cons.mp ha with rfl | ha'
        · exact List.mem_cons_self _ _
        · have hmem := headI_mem (splitCh_ne_nil c ys)
          exact List.mem_cons_of_mem _ (ih _ hmem a ha')
      · exact List.mem_cons_of_mem _ (ih x (List.mem_of_mem_tail hx') a ha)

/-- Splitting a list free of the separator yields the single segment. -/
theorem splitCh_no_sep (c : Char) (l : List Char) (h : c ∉ l) : splitCh c l = [l] := by
  induction l with
  | nil => rfl
  | cons x xs ih =>
    have hx : ¬ x = c := fun he => h (he ▸ List.mem_cons_self x xs)
    have hxs : c ∉ xs := fun hm => h (List.mem_cons_of_mem _ hm)
    simp [splitCh, hx, ih hxs]

/-- Splitting at the first separator occurrence peels off the
separator-free front segment. -/
theorem splitCh_append_sep (c : Char) (a b : List Char) (ha : c ∉ a) :
    splitCh c (a ++ c :: b) = a :: splitCh c b := by
  induction a with
  | nil => simp [splitCh]
  | cons x xs ih =>
    have hx : ¬ x = c := fun he => ha (he ▸ List.mem_cons_self x xs)
    have hxs : c ∉ xs := fun hm => ha (List.mem_cons_of_mem _ hm)
    simp [splitCh, hx, ih hxs]

/-- `List.getD` returns either a member of the list or the default. -/
theorem getD_mem_or {α : Type} (l : List α) (i : Nat) (d : α) :
    l.getD i d ∈ l ∨ l.getD i d = d := by
  induction l generalizing i with
  | nil => right; rfl
  | cons x xs ih =>
    cases i with
    | zero => left; simp [List.getD]
    | succ n =>
      rcases ih n with hm | he
      · left
        simpa [List.getD] using List.mem_cons_of_mem x (by simpa [List.getD] using hm)
      · right
        simpa [List.getD] using he

end Front

/-- C9 counterexample: for the schema-qualified table name
`public.a_b` — whose short name contains an underscore — splitting the
generated questionnaire identifier on `_` and keeping the last segment
does not recover the table name. -/
theorem C9_roundtrip_counterexample :
    Front.getTableNameFromId (Front.getQuestionnaireId "public.a_b" "public") ≠
      "public.a_b" := by decide

/-- C9 (amended): the questionnaire-identifier round trip holds for
every table name that contains no underscore — then the identifier
`shortName_tableName` has exactly one underscore separating the short
name from the full name, and the last `_`-segment is the table name. -/
theorem C9_roundtrip_amended (t s : String) (h : '_' ∉ t.data) :
    Front.getTableNameFromId (Front.getQuestionnaireId t s) = t := by
  set stn : String := (if t.data.contains '.' then
      String.mk ((Front.splitCh '.' t.data).getD 1 t.data) else t) with hstn
  have hq : Front.getQuestionnaireId t s = stn ++ "_" ++ t := rfl
  have hsub : ∀ a ∈ stn.data, a ∈ t.data := by
    rw [hstn]
    by_cases hc : t.data.contains '.'
    · rw [if_pos hc]
      intro a ha
      rcases Front.getD_mem_or (Front.splitCh '.' t.data) 1 t.data with hmem | heq
      · exact Front.splitCh_subset '.' t.data _ hmem a ha
      · rw [show (String.mk ((Front.splitCh '.' t.data).getD 1 t.data)).data =
            (Front.splitCh '.' t.data).getD 1 t.data from rfl, heq] at ha
        exact ha
    · rw [if_neg hc]
      exact fun a ha => ha
  have hnu : '_' ∉ stn.data := fun hm => h (hsub '_' hm)
  have hdata : (stn ++ "_" ++ t).data = stn.data ++ '_' :: t.data := by
    simp [String.data_append]
  have hsplit : Front.splitCh '_' ((stn ++ "_" ++ t).data) = [stn.data, t.data] := by
    rw [hdata, Front.splitCh_append_sep '_' stn.data t.data hnu,
      Front.splitCh_no_sep '_' t.data h]
  rw [hq]
  unfold Front.getTableNameFromId
  rw [hsplit]
  simp [List.getLastD]

/-- C9 witness: the round trip on a concrete underscore-free
schema-qualified table name. -/
theorem C9_roundtrip_amended_witness :
    '_' ∉ ("public.social" : String).data ∧
      Front.getTableNameFromId (Front.getQuestionnaireId "public.social" "public") =
        "public.social" :=
  ⟨by decide, C9_roundtrip_amended "public.social" "public" (by decide)⟩

namespace Front

/-- The selection validation loop succeeds exactly when every selection
has a truthy `questionnaireId` and a `variables` array. -/
theorem checkSelections_ok_iff (i : Nat) (sels : List TVariableSelection) :
    checkSelections i sels = .ok () ↔
      ∀ s ∈ sels, jsFalsyStr s.questionnaireId = false ∧ s.variableNames ≠ none := by
  induction sels generalizing i with
  | nil => simp [checkSelections]
  | cons x xs ih =>
    rw [List.forall_mem_cons]
    cases hq : jsFalsyStr x.questionnaireId with
    | true =>
      simp only [checkSelections, hq, if_true]
      constructor
      · intro he; exact Except.noConfusion he
      · intro hall; exact absurd hall.1.1 (by simp)
    | false =>
      cases hv : x.variableNames with
      | none =>
        simp only [checkSelections, hq, Bool.false_eq_true, if_false, hv]
        constructor
        · intro he; exact Except.noConfusion he
        · intro hall; exact absurd rfl hall.1.2
      | some vs =>
        simp only [checkSelections, hq, Bool.false_eq_true, if_false, hv]
        rw [ih (i + 1)]
        constructor
        · intro hall
          exact ⟨⟨by simp, by simp⟩, hall⟩
        · intro hall; exact hall.2
end Front

/-- C10: `submitExtraction` posts to `/api/v1/extract` exactly when the
request has a truthy `datasetId`, a `selections` array, and every
selection carries a truthy `questionnaireId` and a `variables` array;
otherwise it throws an `Error` (so no network request is issued). -/
theorem C10_submit_validation (r : Front.TExtractionRequest) :
    (Front.submitExtraction r = .ok "/api/v1/extract" ↔
      Front.jsFalsyStr r.datasetId = false ∧
        ∃ sels, r.selections = some sels ∧
          ∀ s ∈ sels, Front.jsFalsyStr s.questionnaireId = false ∧
            s.variableNames ≠ none) ∧
      (Front.submitExtraction r = .ok "/api/v1/extract" ∨
        ∃ e, Front.submitExtraction r = .error e) := by
  cases hd : Front.jsFalsyStr r.datasetId with
  | true =>
    have hsub : Front.submitExtraction r =
        .error "Missing datasetId in extraction request" := by
      simp only [Front.submitExtraction, hd, if_true]
    refine ⟨?_, Or.inr ⟨_, hsub⟩⟩
    rw [hsub]
    constructor
    · intro he; exact Except.noConfusion he
    · intro hc; exact absurd hc.1 (by simp)
  | false =>
    cases hs : r.selections with
    | none =>
      have hsub : Front.submitExtraction r =
          .error "Missing or invalid selections in extraction request" := by
        simp only [Front.submitExtraction, hd, Bool.false_eq_true, if_false, hs]
      refine ⟨?_, Or.inr ⟨_, hsub⟩⟩
      rw [hsub]
      constructor
      · intro he; exact Except.noConfusion he
      · rintro ⟨-, sels, hsel, -⟩; exact Option.noConfusion hsel
    | some sels =>
      cases hck : Front.checkSelections 0 sels with
      | error e =>
        have hsub : Front.submitExtraction r = .error e := by
          simp only [Front.submitExtraction, hd, Bool.false_eq_true, if_false, hs, hck]
        refine ⟨?_, Or.inr ⟨e, hsub⟩⟩
        rw [hsub]
        constructor
        · intro he; exact Except.noConfusion he
        · rintro ⟨-, sels', hsel', hall⟩
          obtain rfl : sels = sels' := Option.some.inj hsel'
          have hok := (Front.checkSelections_ok_iff 0 sels).mpr hall
          rw [hck] at hok
          exact Except.noConfusion hok
      | ok u =>
        cases u
        have hsub : Front.submitExtraction r = .ok "/api/v1/extract" := by
          simp only [Front.submitExtraction, hd, Bool.false_eq_true, if_false, hs, hck]
        refine ⟨?_, Or.inl hsub⟩
        rw [hsub]
        constructor
        · intro _
          exact ⟨rfl, sels, rfl, (Front.checkSelections_ok_iff 0 sels).mp hck⟩
        · intro _; rfl
